import Mathlib

/-!
Verification of the wind-driven attribution engine of the
sentinel5p-delhi-air-quality pipeline.

The definitions below are shallow embeddings of the Python functions in
scripts/trajectory_analysis.py and scripts/hotspot_analysis.py.  Floating
point values are modelled as real numbers; a possibly-NaN float is modelled
as `Option ℝ` (`none` = NaN), with the IEEE rules that arithmetic propagates
NaN and every comparison involving NaN is false.  Rational numbers are used
where only ordered-field arithmetic occurs (percentile computation), so that
witnesses can be evaluated by the kernel.
-/

open Real
open Classical

/-- A float value that may be NaN: `none` models NaN. -/
def RFloat : Type := Option ℝ

/-- Addition on possibly-NaN floats: NaN propagates. -/
noncomputable def rAdd (a b : RFloat) : RFloat :=
  match a, b with
  | some x, some y => some (x + y)
  | _, _ => none

/-- Multiplication on possibly-NaN floats: NaN propagates. -/
noncomputable def rMul (a b : RFloat) : RFloat :=
  match a, b with
  | some x, some y => some (x * y)
  | _, _ => none

/-- Division on possibly-NaN floats: NaN propagates (divisors used in the
sources are nonzero constants, so 0-division is not reachable there). -/
noncomputable def rDiv (a b : RFloat) : RFloat :=
  match a, b with
  | some x, some y => some (x / y)
  | _, _ => none

/-- Negation on possibly-NaN floats. -/
noncomputable def rNeg (a : RFloat) : RFloat := a.map (fun x => -x)

/-- Squaring (`** 2`) on possibly-NaN floats. -/
noncomputable def rSq (a : RFloat) : RFloat := a.map (fun x => x ^ 2)

/-- numpy `sqrt`: NaN on NaN input and on negative input. -/
noncomputable def rSqrt (a : RFloat) : RFloat :=
  match a with
  | some x => if x < 0 then none else some (Real.sqrt x)
  | none => none

/-- Strict comparison of possibly-NaN floats: false when either is NaN. -/
def rLt (a b : RFloat) : Prop :=
  match a, b with
  | some x, some y => x < y
  | _, _ => False

/-- Non-strict comparison of possibly-NaN floats: false when either is NaN. -/
def rLe (a b : RFloat) : Prop :=
  match a, b with
  | some x, some y => x ≤ y
  | _, _ => False

/-- Two-argument arctangent, `atan2 y x`, as the argument of the complex
number `x + y i`; this matches `np.arctan2` on non-NaN inputs (range
`(-π, π]`). -/
noncomputable def atan2 (y x : ℝ) : ℝ := Complex.arg ((x : ℂ) + (y : ℂ) * Complex.I)

/-- Python/numpy `%` on floats with a positive modulus:
`x % m = x - m * ⌊x / m⌋`. -/
noncomputable def realMod (x m : ℝ) : ℝ := x - m * ⌊x / m⌋

/-- `atan2` lifted to possibly-NaN floats. -/
noncomputable def ratan2 (y x : RFloat) : RFloat :=
  match y, x with
  | some a, some b => some (atan2 a b)
  | _, _ => none

/-- `% m` lifted to possibly-NaN floats. -/
noncomputable def rMod (a : RFloat) (m : ℝ) : RFloat := a.map (fun x => realMod x m)

/-- Wind-from-direction in degrees for non-NaN wind components, as computed
by `calculate_wind_regime`: `(atan2(-u, -v) * 180 / π + 360) % 360`. -/
noncomputable def windDirR (u v : ℝ) : ℝ :=
  realMod (atan2 (-u) (-v) * 180 / Real.pi + 360) 360

/-- The local `wind_speed` of `calculate_wind_regime`:
`np.sqrt(u_wind**2 + v_wind**2)`. -/
noncomputable def windSpeedF (u_wind v_wind : RFloat) : RFloat :=
  rSqrt (rAdd (rSq u_wind) (rSq v_wind))

/-- The local `wind_dir` of `calculate_wind_regime`:
`(np.arctan2(-u_wind, -v_wind) * 180 / np.pi + 360) % 360`. -/
noncomputable def windDirF (u_wind v_wind : RFloat) : RFloat :=
  rMod (rAdd (rDiv (rMul (ratan2 (rNeg u_wind) (rNeg v_wind)) (some 180))
    (some Real.pi)) (some 360)) 360

/-- Embedding of `calculate_wind_regime` (scripts/trajectory_analysis.py,
lines 56-93): wind speed below the threshold gives `local`; otherwise the
wind-from-direction is bucketed into the four compass sectors, with a
residual `advected_other` branch. -/
noncomputable def calculate_wind_regime (u_wind v_wind : RFloat)
    (wind_speed_threshold : ℝ := 4) : String :=
  if rLt (windSpeedF u_wind v_wind) (some wind_speed_threshold) then "local"
  else if rLe (some 315) (windDirF u_wind v_wind) ∨
      rLt (windDirF u_wind v_wind) (some 45) then "advected_north"
  else if rLe (some 45) (windDirF u_wind v_wind) ∧
      rLt (windDirF u_wind v_wind) (some 135) then "advected_east"
  else if rLe (some 135) (windDirF u_wind v_wind) ∧
      rLt (windDirF u_wind v_wind) (some 225) then "advected_south"
  else if rLe (some 225) (windDirF u_wind v_wind) ∧
      rLt (windDirF u_wind v_wind) (some 315) then "advected_west"
  else "advected_other"

/-- Embedding of the per-record classification stage of
`classify_pollution_regime` (scripts/trajectory_analysis.py, lines 170-184):
after the left-merge with the monthly wind table, every record — including
those whose wind components are missing — is passed to
`calculate_wind_regime`, and the binary flags are derived from the label.
Each row carries (key, u_wind, v_wind); the result rows carry
(key, regime, is_local, is_advected). -/
noncomputable def classify_pollution_regime {α : Type}
    (rows : List (α × RFloat × RFloat)) : List (α × String × Bool × Bool) :=
  rows.map (fun r =>
    let regime := calculate_wind_regime r.2.1 r.2.2
    (r.1, regime, regime == "local", !(regime == "local")))

/-- A single back-trajectory waypoint: the code appends the already-updated
position together with the sampled wind components. -/
structure Waypoint where
  time : ℤ
  lon : ℝ
  lat : ℝ
  u_wind : ℝ
  v_wind : ℝ

instance : Inhabited Waypoint := ⟨⟨0, 0, 0, 0, 0⟩⟩

/-- The hour offsets visited by `for hour in range(0, hours_back, 6)`. -/
def hoursList (hours_back : ℕ) : List ℕ := List.range' 0 ((hours_back + 5) / 6) 6

/-- Loop body of `calculate_back_trajectory`: walk the hour offsets, sample
the wind field (`none` models a failed `sel`/conversion caught by the bare
`except`, which breaks the loop), update the position, and record the
updated position as a waypoint. -/
noncomputable def backTrajGo (field : ℤ → ℝ → ℝ → Option (ℝ × ℝ)) (start_time : ℤ) :
    List ℕ → ℝ → ℝ → List Waypoint
  | [], _, _ => []
  | hour :: rest, current_lon, current_lat =>
    let time_step := start_time - hour
    match field time_step current_lat current_lon with
    | none => []
    | some uv =>
      let new_lon := current_lon -
        (uv.1 * 6 * 3600) / (111320 * Real.cos (current_lat * Real.pi / 180))
      let new_lat := current_lat - (uv.2 * 6 * 3600) / 111320
      ⟨time_step, new_lon, new_lat, uv.1, uv.2⟩ ::
        backTrajGo field start_time rest new_lon new_lat

/-- Embedding of `calculate_back_trajectory` (scripts/trajectory_analysis.py,
lines 188-245).  The wind field is a function from (time, latitude,
longitude) to an optional (u, v) sample; `none` models any exception raised
inside the `try` block. -/
noncomputable def calculate_back_trajectory (field : ℤ → ℝ → ℝ → Option (ℝ × ℝ))
    (start_lon start_lat : ℝ) (start_time : ℤ) (hours_back : ℕ := 72) : List Waypoint :=
  backTrajGo field start_time (hoursList hours_back) start_lon start_lat

/-- Longitude of the current position after a (partial) trajectory. -/
def lastLon (start_lon : ℝ) (traj : List Waypoint) : ℝ :=
  (traj.getLast?).elim start_lon Waypoint.lon

/-- Latitude of the current position after a (partial) trajectory. -/
def lastLat (start_lat : ℝ) (traj : List Waypoint) : ℝ :=
  (traj.getLast?).elim start_lat Waypoint.lat

/-- The ascending sort used by the percentile computation. -/
def sortedVals (xs : List ℚ) : List ℚ := List.insertionSort (· ≤ ·) xs

/-- The virtual index `p * (n - 1) / 100` of the numpy linear-interpolation
percentile. -/
def pIndex (xs : List ℚ) (p : ℚ) : ℚ := p * (((sortedVals xs).length : ℚ) - 1) / 100

/-- numpy linear-interpolation percentile over a nonempty list (the only
mode the pipeline uses): sort ascending, take the virtual index
`h = p * (n - 1) / 100`, and interpolate between the entries at `⌊h⌋` and
`⌊h⌋ + 1` (the latter defaulting to the former at the top end). -/
def percentile (xs : List ℚ) (p : ℚ) : ℚ :=
  (sortedVals xs).getD (⌊pIndex xs p⌋).toNat 0 +
    (pIndex xs p - (((⌊pIndex xs p⌋).toNat : ℕ) : ℚ)) *
      ((sortedVals xs).getD ((⌊pIndex xs p⌋).toNat + 1)
        ((sortedVals xs).getD (⌊pIndex xs p⌋).toNat 0) -
       (sortedVals xs).getD (⌊pIndex xs p⌋).toNat 0)

/-- Embedding of the selection stage of `analyze_severe_episodes`
(scripts/trajectory_analysis.py, lines 266-280): an empty set of present
values short-circuits to an empty result; otherwise every record whose
value is present and ≥ the percentile threshold is kept (a NaN value
compares false and is dropped). -/
def severe_days (series : List (ℤ × Option ℚ)) (threshold_percentile : ℚ := 90) :
    List (ℤ × Option ℚ) :=
  if series.filterMap Prod.snd = [] then []
  else series.filter (fun r => match r.2 with
    | some v => decide (percentile (series.filterMap Prod.snd) threshold_percentile ≤ v)
    | none => false)

/-- An output row of `analyze_severe_episodes`: the record plus the
trajectory-derived columns, which stay missing when the trajectory is
empty. -/
structure EpisodeRec where
  date : ℤ
  value : Option ℚ
  origin_lon : Option ℝ
  origin_lat : Option ℝ
  trajectory_distance : Option ℝ

/-- Embedding of `analyze_severe_episodes` (scripts/trajectory_analysis.py,
lines 247-303): for each severe day a 72-hour back-trajectory is computed
from the domain center; when it is non-empty, the last waypoint becomes the
origin and the planar degree distance × 111 becomes `trajectory_distance`;
when it is empty the three columns are left missing and the row is kept. -/
noncomputable def analyze_severe_episodes (series : List (ℤ × Option ℚ))
    (threshold_percentile : ℚ) (field : ℤ → ℝ → ℝ → Option (ℝ × ℝ))
    (center_lon center_lat : ℝ) : List EpisodeRec :=
  (severe_days series threshold_percentile).map (fun r =>
    match (calculate_back_trajectory field center_lon center_lat r.1 72).getLast? with
    | none => ⟨r.1, r.2, none, none, none⟩
    | some origin =>
      ⟨r.1, r.2, some origin.lon, some origin.lat,
        some (Real.sqrt ((origin.lon - center_lon) ^ 2 +
          (origin.lat - center_lat) ^ 2) * 111)⟩)

/-- Embedding of `calculate_persistent_hotspots`
(scripts/hotspot_analysis.py, lines 33-81) applied to the flattened
temporal-mean grid: `none` cells are NaN; with no present value the
function returns `None`; otherwise the mask marks cells whose value is
STRICTLY greater than the percentile threshold (`mean_data > threshold`),
and NaN cells are never marked. -/
def calculate_persistent_hotspots (mean_data : List (Option ℚ))
    (percentile_threshold : ℚ := 90) : Option (List Bool) :=
  if mean_data.filterMap id = [] then none
  else some (mean_data.map (fun c => match c with
    | some v => decide (percentile (mean_data.filterMap id) percentile_threshold < v)
    | none => false))

/-- A known source entry from the configuration. -/
structure KSource where
  name : String
  lon : ℝ
  lat : ℝ

/-- A row of the hotspot table produced by `identify_source_regions`. -/
structure CellRec where
  lon : ℝ
  lat : ℝ
  source_type : String
  distance_to_known : Option ℝ
  known_source_name : Option String

/-- Straight degree distance × 111 km/degree between a cell and a source,
as computed in `identify_source_regions`. -/
noncomputable def sourceDistKm (p : ℝ × ℝ) (s : KSource) : ℝ :=
  Real.sqrt ((p.1 - s.lon) ^ 2 + (p.2 - s.lat) ^ 2) * 111

/-- One pass of the inner loop of `identify_source_regions`: a cell within
10 km of the source is overwritten with this source's category, name and
distance; other cells are unchanged. -/
noncomputable def applySource (source_type : String) (s : KSource) (c : CellRec) : CellRec :=
  if sourceDistKm (c.lon, c.lat) s < 10 then
    ⟨c.lon, c.lat, source_type, some (sourceDistKm (c.lon, c.lat) s), some s.name⟩
  else c

/-- Embedding of `identify_source_regions` (scripts/hotspot_analysis.py,
lines 83-130): each hotspot cell starts as `unknown` and the nested loop
over source categories and sources repeatedly overwrites matching cells. -/
noncomputable def identify_source_regions (cells : List (ℝ × ℝ))
    (known_sources : List (String × List KSource)) : List CellRec :=
  let init := cells.map (fun p => (⟨p.1, p.2, "unknown", none, none⟩ : CellRec))
  known_sources.foldl (fun df st => st.2.foldl (fun df2 s => df2.map (applySource st.1 s)) df) init

/-- All (category, source) pairs, in visitation order, matching a cell
(distance strictly below 10 km); used to characterize the last-match-wins
behaviour of `identify_source_regions`. -/
noncomputable def matchingSources (known_sources : List (String × List KSource))
    (p : ℝ × ℝ) : List (String × KSource) :=
  ((known_sources.map (fun st => st.2.map (fun s => (st.1, s)))).flatten).filter
    (fun ts => decide (sourceDistKm p ts.2 < 10))

/-- The row `identify_source_regions` produces for one cell: the last
matching (category, source) pair wins; with no match the cell stays
`unknown` with missing distance and name. -/
noncomputable def cellResult (known_sources : List (String × List KSource))
    (p : ℝ × ℝ) : CellRec :=
  match (matchingSources known_sources p).getLast? with
  | none => ⟨p.1, p.2, "unknown", none, none⟩
  | some ts => ⟨p.1, p.2, ts.1, some (sourceDistKm p ts.2), some ts.2.name⟩

/-- The haversine metric exactly as the clustering library computes it on a
pair of radian coordinate vectors, treating the FIRST component of each
vector as latitude: `2 asin √(sin²((x1-y1)/2) + cos x1 cos y1 sin²((x2-y2)/2))`
(unit-sphere great-circle distance, in radians). -/
noncomputable def havRad (x1 x2 y1 y2 : ℝ) : ℝ :=
  2 * Real.arcsin (Real.sqrt (Real.sin ((x1 - y1) / 2) ^ 2 +
    Real.cos x1 * Real.cos y1 * Real.sin ((x2 - y2) / 2) ^ 2))

/-- `havRad` on coordinate pairs. -/
noncomputable def havPair (p q : ℝ × ℝ) : ℝ := havRad p.1 p.2 q.1 q.2

/-- Componentwise degree-to-radian conversion (`np.radians`) of one
(lon, lat) coordinate pair. -/
noncomputable def radPoint (p : ℝ × ℝ) : ℝ × ℝ :=
  (p.1 * Real.pi / 180, p.2 * Real.pi / 180)

/-- Modelled from the spec: the neighbourhood query of the density-based
clustering step (the clustering itself is performed by an external library
call, `DBSCAN(...).fit_predict`, not by repository code): the indices whose
point lies within `eps` of point `i`, boundary included. -/
noncomputable def dbNeighbors (pts : List (ℝ × ℝ)) (eps : ℝ) (i : ℕ) : List ℕ :=
  (List.range pts.length).filter
    (fun j => decide (havPair (pts.getD i (0, 0)) (pts.getD j (0, 0)) ≤ eps))

/-- Modelled from the spec: a core point of the density-based clustering —
an index whose `eps`-neighbourhood (itself included) has at least
`min_samples` members. -/
noncomputable def dbCore (pts : List (ℝ × ℝ)) (eps : ℝ) (min_samples : ℕ) (i : ℕ) : Prop :=
  i < pts.length ∧ min_samples ≤ (dbNeighbors pts eps i).length

/-- Modelled from the spec: direct density-connection between two core
points (mutual distance at most `eps`). -/
noncomputable def dbAdj (pts : List (ℝ × ℝ)) (eps : ℝ) (min_samples : ℕ) (i j : ℕ) : Prop :=
  dbCore pts eps min_samples i ∧ dbCore pts eps min_samples j ∧
    havPair (pts.getD i (0, 0)) (pts.getD j (0, 0)) ≤ eps

/-- Modelled from the spec: density-connectivity, the reflexive-transitive
closure of direct connection between core points. -/
noncomputable def dbConn (pts : List (ℝ × ℝ)) (eps : ℝ) (min_samples : ℕ) : ℕ → ℕ → Prop :=
  Relation.ReflTransGen (dbAdj pts eps min_samples)

/-- Modelled from the spec: the cluster label of point `i`.  A point within
`eps` of some core point joins that core point's cluster; the cluster id is
canonicalized as the least index density-connected to a core point of the
neighbourhood (the claims constrain only which labels coincide and the
noise sentinel, not the numbering scheme).  A point with no core point in
reach is noise and receives the sentinel `-1`. -/
noncomputable def dbLabel (pts : List (ℝ × ℝ)) (eps : ℝ) (min_samples : ℕ) (i : ℕ) : ℤ :=
  if (∃ j, dbCore pts eps min_samples j ∧
      havPair (pts.getD i (0, 0)) (pts.getD j (0, 0)) ≤ eps) then
    (sInf {m : ℕ | dbCore pts eps min_samples m ∧
      ∃ j, dbCore pts eps min_samples j ∧
        havPair (pts.getD i (0, 0)) (pts.getD j (0, 0)) ≤ eps ∧
        dbConn pts eps min_samples j m} : ℕ)
  else -1

/-- Modelled from the spec: the label vector returned by the clustering
library, one label per input point, in order. -/
noncomputable def dbscanLabels (pts : List (ℝ × ℝ)) (eps : ℝ) (min_samples : ℕ) : List ℤ :=
  (List.range pts.length).map (dbLabel pts eps min_samples)

/-- Embedding of `cluster_hotspots` (scripts/hotspot_analysis.py, lines
132-158): coordinates (given as (lon, lat) degree pairs) are converted to
radians componentwise, `eps` is `eps_km / 111`, and the density-based
clustering runs with `min_samples = 3` and the haversine metric (which
treats the first, longitude, component as latitude). -/
noncomputable def cluster_hotspots (hotspot_coords : List (ℝ × ℝ)) (eps_km : ℝ := 5) : List ℤ :=
  dbscanLabels (hotspot_coords.map radPoint) (eps_km / 111) 3

/-- True great-circle distance in km between two (lon, lat) degree points on
the Earth (radius 6371 km), used to state the claim's phrase "within
eps_km": the haversine metric applied with latitude first. -/
noncomputable def geoDistKm (p q : ℝ × ℝ) : ℝ :=
  6371 * havRad (p.2 * Real.pi / 180) (p.1 * Real.pi / 180)
    (q.2 * Real.pi / 180) (q.1 * Real.pi / 180)

/-- Embedding of `load_all_era5_daily` (scripts/trajectory_analysis.py,
lines 27-54), restricted to the time axis: each successfully loaded period
file contributes its list of (timestamp, grid) slices; with no datasets the
function returns `None`; otherwise the lists are concatenated along time
and sorted by timestamp (`xr.concat` followed by `sortby`; no
deduplication of timestamps takes place).  Only sortedness and being a
permutation of the concatenation are relied upon, so the choice of
insertion sort here is immaterial. -/
def load_all_era5_daily {α : Type} (datasets : List (List (ℤ × α))) :
    Option (List (ℤ × α)) :=
  if datasets.isEmpty then none
  else some (List.insertionSort (fun a b => a.1 ≤ b.1) datasets.flatten)

/-! ## Helper lemmas -/

lemma realMod_eq_fract (x m : ℝ) (hm : m ≠ 0) : realMod x m = m * Int.fract (x / m) := by
  unfold realMod Int.fract
  field_simp

lemma realMod_nonneg (x m : ℝ) (hm : 0 < m) : 0 ≤ realMod x m := by
  rw [realMod_eq_fract x m (ne_of_gt hm)]
  exact mul_nonneg hm.le (Int.fract_nonneg _)

lemma realMod_lt (x m : ℝ) (hm : 0 < m) : realMod x m < m := by
  rw [realMod_eq_fract x m (ne_of_gt hm)]
  calc m * Int.fract (x / m) < m * 1 :=
        (mul_lt_mul_left hm).mpr (Int.fract_lt_one _)
    _ = m := mul_one m

lemma rSqrt_some_of_nonneg (x : ℝ) (hx : 0 ≤ x) : rSqrt (some x) = some (Real.sqrt x) := by
  unfold rSqrt
  exact if_neg (not_lt.mpr hx)

lemma calculate_wind_regime_some_eq (u v thr : ℝ) :
    calculate_wind_regime (some u) (some v) thr =
      if Real.sqrt (u ^ 2 + v ^ 2) < thr then "local"
      else if 315 ≤ windDirR u v ∨ windDirR u v < 45 then "advected_north"
      else if 45 ≤ windDirR u v ∧ windDirR u v < 135 then "advected_east"
      else if 135 ≤ windDirR u v ∧ windDirR u v < 225 then "advected_south"
      else if 225 ≤ windDirR u v ∧ windDirR u v < 315 then "advected_west"
      else "advected_other" := by
  have hspeed : windSpeedF (some u) (some v) = some (Real.sqrt (u ^ 2 + v ^ 2)) := by
    unfold windSpeedF
    rw [show rAdd (rSq (some u)) (rSq (some v)) = some (u ^ 2 + v ^ 2) from rfl]
    exact rSqrt_some_of_nonneg _ (by positivity)
  have hdir : windDirF (some u) (some v) = some (windDirR u v) := rfl
  unfold calculate_wind_regime
  rw [hspeed, hdir]
  simp only [rLt, rLe]

/-! ## Claim theorems -/

/-- C1: for every finite real wind vector (u, v), speeds below the
threshold classify as `local`; otherwise, with
`d = (atan2(-u,-v)·180/π + 360) mod 360`, the direction `d` lies in
`[0, 360)` and the label is `advected_north` exactly on `[315,360) ∪ [0,45)`,
`advected_east` exactly on `[45,135)`, `advected_south` exactly on
`[135,225)`, `advected_west` exactly on `[225,315)` (boundary values fall
into the higher bucket), and the residual `advected_other` branch is never
returned. -/
theorem calculate_wind_regime_buckets (u v thr : ℝ) :
    (Real.sqrt (u ^ 2 + v ^ 2) < thr →
      calculate_wind_regime (some u) (some v) thr = "local") ∧
    (thr ≤ Real.sqrt (u ^ 2 + v ^ 2) →
      (0 ≤ windDirR u v ∧ windDirR u v < 360) ∧
      (calculate_wind_regime (some u) (some v) thr = "advected_north" ↔
        315 ≤ windDirR u v ∨ windDirR u v < 45) ∧
      (calculate_wind_regime (some u) (some v) thr = "advected_east" ↔
        45 ≤ windDirR u v ∧ windDirR u v < 135) ∧
      (calculate_wind_regime (some u) (some v) thr = "advected_south" ↔
        135 ≤ windDirR u v ∧ windDirR u v < 225) ∧
      (calculate_wind_regime (some u) (some v) thr = "advected_west" ↔
        225 ≤ windDirR u v ∧ windDirR u v < 315) ∧
      calculate_wind_regime (some u) (some v) thr ≠ "advected_other") := by
  rw [calculate_wind_regime_some_eq]
  have hd0 : 0 ≤ windDirR u v := realMod_nonneg _ 360 (by norm_num)
  have hd360 : windDirR u v < 360 := realMod_lt _ 360 (by norm_num)
  constructor
  · intro h
    rw [if_pos h]
  · intro h
    rw [if_neg (not_lt.mpr h)]
    set d := windDirR u v with hd
    refine ⟨⟨hd0, hd360⟩, ?_⟩
    rcases lt_or_le d 45 with h45 | h45
    · rw [if_pos (Or.inr h45)]
      exact ⟨iff_of_true rfl (Or.inr h45),
        iff_of_false (by decide) (fun hc => by linarith [hc.1]),
        iff_of_false (by decide) (fun hc => by linarith [hc.1]),
        iff_of_false (by decide) (fun hc => by linarith [hc.1]),
        by decide⟩
    · rcases lt_or_le d 135 with h135 | h135
      · rw [if_neg (by rintro (hc | hc) <;> linarith), if_pos ⟨h45, h135⟩]
        exact ⟨iff_of_false (by decide) (by rintro (hc | hc) <;> linarith),
          iff_of_true rfl ⟨h45, h135⟩,
          iff_of_false (by decide) (fun hc => by linarith [hc.1]),
          iff_of_false (by decide) (fun hc => by linarith [hc.1]),
          by decide⟩
      · rcases lt_or_le d 225 with h225 | h225
        · rw [if_neg (by rintro (hc | hc) <;> linarith),
            if_neg (fun hc => by linarith [hc.2]), if_pos ⟨h135, h225⟩]
          exact ⟨iff_of_false (by decide) (by rintro (hc | hc) <;> linarith),
            iff_of_false (by decide) (fun hc => by linarith [hc.2]),
            iff_of_true rfl ⟨h135, h225⟩,
            iff_of_false (by decide) (fun hc => by linarith [hc.1]),
            by decide⟩
        · rcases lt_or_le d 315 with h315 | h315
          · rw [if_neg (by rintro (hc | hc) <;> linarith),
              if_neg (fun hc => by linarith [hc.2]),
              if_neg (fun hc => by linarith [hc.2]), if_pos ⟨h225, h315⟩]
            exact ⟨iff_of_false (by decide) (by rintro (hc | hc) <;> linarith),
              iff_of_false (by decide) (fun hc => by linarith [hc.2]),
              iff_of_false (by decide) (fun hc => by linarith [hc.2]),
              iff_of_true rfl ⟨h225, h315⟩,
              by decide⟩
          · rw [if_pos (Or.inl h315)]
            exact ⟨iff_of_true rfl (Or.inl h315),
              iff_of_false (by decide) (fun hc => by linarith [hc.2]),
              iff_of_false (by decide) (fun hc => by linarith [hc.2]),
              iff_of_false (by decide) (fun hc => by linarith [hc.2]),
              by decide⟩

/-- Witness for C1 at the concrete input u = 0, v = −10, threshold 5: the
speed is 10 ≥ 5 and the classifier output matches the north bucket
biconditional. -/
theorem calculate_wind_regime_buckets_witness :
    (5 : ℝ) ≤ Real.sqrt ((0 : ℝ) ^ 2 + (-10 : ℝ) ^ 2) ∧
    (calculate_wind_regime (some 0) (some (-10)) 5 = "advected_north" ↔
      315 ≤ windDirR 0 (-10) ∨ windDirR 0 (-10) < 45) := by
  have hs : Real.sqrt ((0 : ℝ) ^ 2 + (-10 : ℝ) ^ 2) = 10 := by
    rw [show ((0 : ℝ) ^ 2 + (-10 : ℝ) ^ 2) = 10 ^ 2 by norm_num]
    exact Real.sqrt_sq (by norm_num)
  have h5 : (5 : ℝ) ≤ Real.sqrt ((0 : ℝ) ^ 2 + (-10 : ℝ) ^ 2) := by
    rw [hs]; norm_num
  exact ⟨h5, ((calculate_wind_regime_buckets 0 (-10) 5).2 h5).2.1⟩

/-- C2 counterexample: a record whose wind components are missing (NaN) is
not left unclassified — `calculate_wind_regime` falls through every
comparison (all false on NaN) and returns the label `advected_other`, and
the classification stage records that label with `is_advected = true`. -/
theorem classify_missing_regime_counterexample :
    calculate_wind_regime none none 4 = "advected_other" ∧
    classify_pollution_regime [((0 : ℤ), (none : RFloat), (none : RFloat))] =
      [((0 : ℤ), "advected_other", false, true)] := by
  have hreg : calculate_wind_regime none none 4 = "advected_other" := by
    have h1 : windSpeedF none none = none := rfl
    have h2 : windDirF none none = none := rfl
    unfold calculate_wind_regime
    rw [h1, h2]
    simp [rLt, rLe]
  refine ⟨hreg, ?_⟩
  simp [classify_pollution_regime, hreg]

/-- C2 amended: when the wind data of a record is unavailable (u or v
missing after the merge), the record is NOT left unclassified; it receives
the residual label `advected_other`, with `is_local = false` and
`is_advected = true`. -/
theorem classify_missing_regime_amended {α : Type} (rows : List (α × RFloat × RFloat))
    (k : α) (u v : RFloat) (hmem : (k, u, v) ∈ rows) (hmiss : u = none ∨ v = none) :
    (k, "advected_other", false, true) ∈ classify_pollution_regime rows := by
  have hreg : calculate_wind_regime u v 4 = "advected_other" := by
    have h1 : windSpeedF u v = none := by
      rcases hmiss with h | h <;> subst h
      · rfl
      · cases u <;> rfl
    have h2 : windDirF u v = none := by
      rcases hmiss with h | h <;> subst h
      · rfl
      · cases u <;> rfl
    unfold calculate_wind_regime
    rw [h1, h2]
    simp [rLt, rLe]
  refine List.mem_map.mpr ⟨(k, u, v), hmem, ?_⟩
  simp [hreg]

/-- Witness for C2 amended at a concrete one-row series with missing wind. -/
theorem classify_missing_regime_amended_witness :
    ((0 : ℤ), "advected_other", false, true) ∈
      classify_pollution_regime [((0 : ℤ), (none : RFloat), (none : RFloat))] :=
  classify_missing_regime_amended _ 0 none none (by simp) (Or.inl rfl)

/-- The constant wind field u = 0, v = −10 m/s of the end-to-end scenario. -/
noncomputable def c3field : ℤ → ℝ → ℝ → Option (ℝ × ℝ) := fun _ _ _ => some (0, -10)

lemma windDirR_zero_neg_ten : windDirR 0 (-10) = 0 := by
  have harg : atan2 (-(0 : ℝ)) (-(-10 : ℝ)) = 0 := by
    unfold atan2
    rw [show ((-(-10 : ℝ) : ℝ) : ℂ) + ((-(0 : ℝ) : ℝ) : ℂ) * Complex.I = ((10 : ℝ) : ℂ) by
      push_cast; ring]
    exact Complex.arg_ofReal_of_nonneg (by norm_num)
  unfold windDirR
  rw [harg]
  unfold realMod
  rw [show (0 : ℝ) * 180 / Real.pi + 360 = 360 by ring]
  rw [show (360 : ℝ) / 360 = 1 by norm_num, Int.floor_one]
  push_cast
  ring

lemma c3_traj_eval (slon slat : ℝ) (st : ℤ) :
    calculate_back_trajectory c3field slon slat st 12 =
      [⟨st - 0, slon - (0 * 6 * 3600) / (111320 * Real.cos (slat * Real.pi / 180)),
        slat - (-10 * 6 * 3600) / 111320, 0, -10⟩,
       ⟨st - 6, slon - (0 * 6 * 3600) / (111320 * Real.cos (slat * Real.pi / 180)) -
          (0 * 6 * 3600) / (111320 *
            Real.cos ((slat - (-10 * 6 * 3600) / 111320) * Real.pi / 180)),
        slat - (-10 * 6 * 3600) / 111320 - (-10 * 6 * 3600) / 111320, 0, -10⟩] := by
  unfold calculate_back_trajectory
  rw [show hoursList 12 = [0, 6] from rfl]
  simp only [backTrajGo, c3field]
  norm_num

/-- C3 corrected part: in the constant u = 0, v = −10 field the
back-trajectory over 12 hours with 6-hour steps does NOT move southward:
already its first waypoint has latitude strictly above the start latitude. -/
theorem back_trajectory_south_counterexample :
    (calculate_back_trajectory c3field 77 28 0 12).length = 2 ∧
    ¬ (((calculate_back_trajectory c3field 77 28 0 12).getD 0 default).lat < 28) := by
  rw [c3_traj_eval]
  constructor
  · rfl
  · simp only [List.getD]
    norm_num

/-- C3 amended: with the constant wind field u = 0, v = −10 m/s and
threshold 5 m/s the classifier returns `advected_north`, and the 12-hour
back-trajectory with 6-hour steps has exactly two waypoints whose
latitudes strictly INCREASE (the parcel is traced back northward, matching
wind that blows from the north). -/
theorem wind_regime_north_trajectory_amended :
    calculate_wind_regime (some 0) (some (-10)) 5 = "advected_north" ∧
    ∀ (slon slat : ℝ) (st : ℤ),
      (calculate_back_trajectory c3field slon slat st 12).length = 2 ∧
      slat < ((calculate_back_trajectory c3field slon slat st 12).getD 0 default).lat ∧
      ((calculate_back_trajectory c3field slon slat st 12).getD 0 default).lat <
        ((calculate_back_trajectory c3field slon slat st 12).getD 1 default).lat := by
  constructor
  · rw [calculate_wind_regime_some_eq, windDirR_zero_neg_ten]
    have hs : Real.sqrt ((0 : ℝ) ^ 2 + (-10 : ℝ) ^ 2) = 10 := by
      rw [show ((0 : ℝ) ^ 2 + (-10 : ℝ) ^ 2) = 10 ^ 2 by norm_num]
      exact Real.sqrt_sq (by norm_num)
    rw [hs]
    rw [if_neg (by norm_num), if_pos (Or.inr (by norm_num : (0 : ℝ) < 45))]
  · intro slon slat st
    rw [c3_traj_eval]
    refine ⟨rfl, ?_, ?_⟩ <;> simp only [List.getD] <;> norm_num

lemma lastLat_cons (a : ℝ) (w : Waypoint) (l : List Waypoint) :
    lastLat a (w :: l) = lastLat w.lat l := by
  cases l with
  | nil => rfl
  | cons b t =>
    unfold lastLat
    rw [List.getLast?_cons_cons,
      List.getLast?_eq_getLast (b :: t) (by simp)]
    rfl

lemma lastLon_cons (a : ℝ) (w : Waypoint) (l : List Waypoint) :
    lastLon a (w :: l) = lastLon w.lon l := by
  cases l with
  | nil => rfl
  | cons b t =>
    unfold lastLon
    rw [List.getLast?_cons_cons,
      List.getLast?_eq_getLast (b :: t) (by simp)]
    rfl

lemma backTrajGo_spec (field : ℤ → ℝ → ℝ → Option (ℝ × ℝ)) (st : ℤ) :
    ∀ (hs : List ℕ) (lon lat : ℝ),
      (backTrajGo field st hs lon lat).length ≤ hs.length ∧
      ((backTrajGo field st hs lon lat).length < hs.length →
        field (st - hs.getD (backTrajGo field st hs lon lat).length 0)
          (lastLat lat (backTrajGo field st hs lon lat))
          (lastLon lon (backTrajGo field st hs lon lat)) = none) := by
  intro hs
  induction hs with
  | nil =>
    intro lon lat
    exact ⟨Nat.le_refl 0, fun h => absurd h (Nat.lt_irrefl 0)⟩
  | cons h rest ih =>
    intro lon lat
    rcases hfield : field (st - h) lat lon with _ | uv
    · constructor
      · rw [show backTrajGo field st (h :: rest) lon lat = [] by
          simp only [backTrajGo, hfield]]
        exact Nat.zero_le _
      · intro _
        rw [show backTrajGo field st (h :: rest) lon lat = [] by
          simp only [backTrajGo, hfield]]
        simpa [lastLat, lastLon] using hfield
    · have hgo : backTrajGo field st (h :: rest) lon lat =
          ⟨st - h,
            lon - (uv.1 * 6 * 3600) / (111320 * Real.cos (lat * Real.pi / 180)),
            lat - (uv.2 * 6 * 3600) / 111320, uv.1, uv.2⟩ ::
          backTrajGo field st rest
            (lon - (uv.1 * 6 * 3600) / (111320 * Real.cos (lat * Real.pi / 180)))
            (lat - (uv.2 * 6 * 3600) / 111320) := by
        simp only [backTrajGo, hfield]
      set lon2 := lon - (uv.1 * 6 * 3600) / (111320 * Real.cos (lat * Real.pi / 180))
      set lat2 := lat - (uv.2 * 6 * 3600) / 111320
      obtain ⟨ihlen, ihfail⟩ := ih lon2 lat2
      rw [hgo]
      constructor
      · simpa using Nat.succ_le_succ ihlen
      · intro hlt
        have hlt2 : (backTrajGo field st rest lon2 lat2).length < rest.length := by
          simpa using Nat.lt_of_succ_lt_succ (by simpa using hlt)
        have := ihfail hlt2
        simpa [lastLat_cons, lastLon_cons, List.getD_cons_succ] using this

/-- C4: the back-trajectory integration is total (never raises), returns at
most ⌈hours_back/6⌉ waypoints, and when it returns fewer, the wind sample
at the next step — taken at the time and position reached after the partial
trajectory — fails; the waypoints already collected are returned as-is. -/
theorem calculate_back_trajectory_truncation (field : ℤ → ℝ → ℝ → Option (ℝ × ℝ))
    (start_lon start_lat : ℝ) (start_time : ℤ) (hours_back : ℕ) :
    (calculate_back_trajectory field start_lon start_lat start_time hours_back).length ≤
      (hours_back + 5) / 6 ∧
    ((calculate_back_trajectory field start_lon start_lat start_time hours_back).length <
        (hours_back + 5) / 6 →
      field (start_time - 6 *
          ((calculate_back_trajectory field start_lon start_lat start_time hours_back).length : ℤ))
        (lastLat start_lat (calculate_back_trajectory field start_lon start_lat start_time hours_back))
        (lastLon start_lon (calculate_back_trajectory field start_lon start_lat start_time hours_back)) =
        none) := by
  obtain ⟨hlen, hfail⟩ := backTrajGo_spec field start_time (hoursList hours_back)
    start_lon start_lat
  have hlenrange : (hoursList hours_back).length = (hours_back + 5) / 6 := by
    unfold hoursList
    exact List.length_range' _ _ _
  constructor
  · unfold calculate_back_trajectory
    rw [← hlenrange]
    exact hlen
  · intro hlt
    have hlt' : (backTrajGo field start_time (hoursList hours_back) start_lon start_lat).length <
        (hoursList hours_back).length := by
      rw [hlenrange]
      exact hlt
    have hgd : (hoursList hours_back).getD
        (backTrajGo field start_time (hoursList hours_back) start_lon start_lat).length 0 =
        6 * (backTrajGo field start_time (hoursList hours_back) start_lon start_lat).length := by
      rw [List.getD_eq_getElem _ _ (by rw [hlenrange]; exact hlt)]
      unfold hoursList
      rw [List.getElem_range']
      ring
    have := hfail hlt'
    rw [hgd] at this
    have hc : ((6 * (backTrajGo field start_time (hoursList hours_back)
        start_lon start_lat).length : ℕ) : ℤ) =
        6 * ((backTrajGo field start_time (hoursList hours_back)
          start_lon start_lat).length : ℤ) := by
      push_cast
      ring
    rw [hc] at this
    unfold calculate_back_trajectory
    exact this

/-- A wind field usable only at non-negative times: sampling at the second
step (t = −6) of a 12-hour run fails. -/
noncomputable def c4field : ℤ → ℝ → ℝ → Option (ℝ × ℝ) :=
  fun t _ _ => if 0 ≤ t then some (0, 0) else none

lemma c4_traj_eval :
    calculate_back_trajectory c4field 77 28 0 12 =
      [⟨0 - 0, 77 - (0 * 6 * 3600) / (111320 * Real.cos (28 * Real.pi / 180)),
        28 - (0 * 6 * 3600) / 111320, 0, 0⟩] := by
  unfold calculate_back_trajectory
  rw [show hoursList 12 = [0, 6] from rfl]
  simp only [backTrajGo, c4field]
  norm_num

/-- Witness for C4 with a concrete field that fails at the second of two
steps: the bound and the truncation clause are obtained by applying the
theorem, the premise being discharged by evaluation. -/
theorem calculate_back_trajectory_truncation_witness :
    (calculate_back_trajectory c4field 77 28 0 12).length ≤ (12 + 5) / 6 ∧
    c4field (0 - 6 * ((calculate_back_trajectory c4field 77 28 0 12).length : ℤ))
      (lastLat 28 (calculate_back_trajectory c4field 77 28 0 12))
      (lastLon 77 (calculate_back_trajectory c4field 77 28 0 12)) = none := by
  refine ⟨(calculate_back_trajectory_truncation c4field 77 28 0 12).1, ?_⟩
  exact (calculate_back_trajectory_truncation c4field 77 28 0 12).2
    (by rw [c4_traj_eval]; norm_num)

lemma sorted_le_getLast {l : List ℚ} (hs : l.Sorted (· ≤ ·)) {x : ℚ} (hx : x ∈ l)
    (hl : l ≠ []) : x ≤ l.getLast hl := by
  induction l with
  | nil => exact absurd hx (List.not_mem_nil x)
  | cons a t ih =>
    cases t with
    | nil =>
      rw [List.mem_singleton] at hx
      subst hx
      exact le_refl _
    | cons b u =>
      rw [List.getLast_cons (by simp : b :: u ≠ [])]
      rcases List.mem_cons.mp hx with h | h
      · subst h
        exact le_trans
          (List.rel_of_sorted_cons hs _ (List.getLast_mem _))
          (le_refl _)
      · exact ih hs.of_cons h (by simp)

lemma sorted_head_le {l : List ℚ} (hs : l.Sorted (· ≤ ·)) {x : ℚ} (hx : x ∈ l) :
    l.getD 0 0 ≤ x := by
  cases l with
  | nil => exact absurd hx (List.not_mem_nil x)
  | cons a t =>
    rcases List.mem_cons.mp hx with h | h
    · subst h
      exact le_refl _
    · exact List.rel_of_sorted_cons hs _ h

lemma sortedVals_ne_nil {xs : List ℚ} (hxs : xs ≠ []) : sortedVals xs ≠ [] := by
  unfold sortedVals
  intro h
  exact hxs (List.eq_nil_of_length_eq_zero (by
    have := congrArg List.length h
    simpa using this))

lemma percentile_hundred_eq (xs : List ℚ) (hxs : xs ≠ []) :
    percentile xs 100 = (sortedVals xs).getLast (sortedVals_ne_nil hxs) := by
  have hn1 : 1 ≤ (sortedVals xs).length :=
    Nat.one_le_iff_ne_zero.mpr (fun h => sortedVals_ne_nil hxs (List.eq_nil_of_length_eq_zero h))
  have hidx : pIndex xs 100 = ((sortedVals xs).length : ℚ) - 1 := by
    unfold pIndex
    rw [mul_comm, mul_div_assoc]
    rw [div_self (by norm_num : (100 : ℚ) ≠ 0), mul_one]
  have hcast : (((sortedVals xs).length : ℚ) - 1) = (((sortedVals xs).length - 1 : ℕ) : ℚ) := by
    rw [Nat.cast_sub hn1]
    norm_num
  have hfloor : (⌊pIndex xs 100⌋).toNat = (sortedVals xs).length - 1 := by
    rw [hidx, hcast, Int.floor_natCast]
    exact Int.toNat_natCast _
  unfold percentile
  rw [hfloor, hidx, hcast, sub_self, zero_mul, add_zero]
  rw [List.getD_eq_getElem _ _ (by omega)]
  rw [List.getLast_eq_getElem]

lemma percentile_zero_eq (xs : List ℚ) :
    percentile xs 0 = (sortedVals xs).getD 0 0 := by
  have hidx : pIndex xs 0 = 0 := by
    unfold pIndex
    rw [zero_mul, zero_div]
  have hfloor : (⌊pIndex xs 0⌋).toNat = 0 := by
    rw [hidx]
    simp
  unfold percentile
  rw [hfloor, hidx]
  norm_num

lemma percentile_hundred_mem (xs : List ℚ) (hxs : xs ≠ []) :
    percentile xs 100 ∈ xs ∧ ∀ x ∈ xs, x ≤ percentile xs 100 := by
  rw [percentile_hundred_eq xs hxs]
  constructor
  · have := List.getLast_mem (sortedVals_ne_nil hxs)
    unfold sortedVals at this
    rwa [List.mem_insertionSort] at this
  · intro x hx
    exact sorted_le_getLast (List.sorted_insertionSort _ xs)
      (by rwa [List.mem_insertionSort]) _

lemma percentile_zero_min (xs : List ℚ) (hxs : xs ≠ []) :
    percentile xs 0 ∈ xs ∧ ∀ x ∈ xs, percentile xs 0 ≤ x := by
  rw [percentile_zero_eq xs]
  have hne := sortedVals_ne_nil hxs
  constructor
  · have hmem : (sortedVals xs).getD 0 0 ∈ sortedVals xs := by
      rw [List.getD_eq_getElem _ _ (by
        cases h : sortedVals xs with
        | nil => exact absurd h hne
        | cons a t => simp)]
      exact List.getElem_mem _
    unfold sortedVals at hmem
    rwa [List.mem_insertionSort] at hmem
  · intro x hx
    exact sorted_head_le (List.sorted_insertionSort _ xs)
      (by rwa [List.mem_insertionSort])

/-- C5: severe-episode selection computes the percentile threshold over
exactly the present values of the series and keeps exactly the records
whose present value is ≥ that threshold; with no present value it returns
the empty list rather than raising; and at percentile = 100 every selected
record carries a maximum value of the series (so only maximum-valued
records, ties included, are selected). -/
theorem severe_days_selection (series : List (ℤ × Option ℚ)) (p : ℚ) :
    (series.filterMap Prod.snd = [] → severe_days series p = []) ∧
    (∀ r, r ∈ severe_days series p ↔
      r ∈ series ∧ ∃ v, r.2 = some v ∧ percentile (series.filterMap Prod.snd) p ≤ v) ∧
    (p = 100 → ∀ r ∈ severe_days series p, ∃ v, r.2 = some v ∧
      ∀ w ∈ series.filterMap Prod.snd, w ≤ v) := by
  have hmain : ∀ r, r ∈ severe_days series p ↔
      r ∈ series ∧ ∃ v, r.2 = some v ∧ percentile (series.filterMap Prod.snd) p ≤ v := by
    intro r
    unfold severe_days
    by_cases hempty : series.filterMap Prod.snd = []
    · rw [if_pos hempty]
      simp only [List.not_mem_nil, false_iff]
      rintro ⟨hr, v, hv, _⟩
      have hvmem : v ∈ series.filterMap Prod.snd := List.mem_filterMap.mpr ⟨r, hr, hv⟩
      rw [hempty] at hvmem
      exact List.not_mem_nil v hvmem
    · rw [if_neg hempty, List.mem_filter]
      constructor
      · rintro ⟨hr, hcond⟩
        refine ⟨hr, ?_⟩
        rcases hr2 : r.2 with _ | v
        · simp only [hr2] at hcond
          exact (Bool.false_ne_true hcond).elim
        · simp only [hr2, decide_eq_true_eq] at hcond
          exact ⟨v, rfl, hcond⟩
      · rintro ⟨hr, v, hv, hle⟩
        refine ⟨hr, ?_⟩
        simp only [hv, decide_eq_true_eq]
        exact hle
  refine ⟨?_, hmain, ?_⟩
  · intro hempty
    unfold severe_days
    rw [if_pos hempty]
  · intro hp r hr
    obtain ⟨hrs, v, hv, hle⟩ := (hmain r).mp hr
    refine ⟨v, hv, fun w hw => ?_⟩
    have hne : series.filterMap Prod.snd ≠ [] := List.ne_nil_of_mem hw
    subst hp
    obtain ⟨_, hmax⟩ := percentile_hundred_mem _ hne
    exact le_trans (hmax w hw) hle

/-- Witness for C5 at a concrete two-record series and percentile 100: the
maximum-valued record is selected and its value dominates every present
value. -/
theorem severe_days_selection_witness :
    (((0 : ℤ), some (2 : ℚ)) ∈ severe_days [((0 : ℤ), some (2 : ℚ)), (1, some 1)] 100) ∧
    (∃ v, (((0 : ℤ), some (2 : ℚ)) : ℤ × Option ℚ).2 = some v ∧
      ∀ w ∈ ([((0 : ℤ), some (2 : ℚ)), (1, some 1)] : List (ℤ × Option ℚ)).filterMap Prod.snd,
        w ≤ v) := by
  have hmem : ((0 : ℤ), some (2 : ℚ)) ∈ severe_days [((0 : ℤ), some (2 : ℚ)), (1, some 1)] 100 :=
    ((severe_days_selection [((0 : ℤ), some (2 : ℚ)), (1, some 1)] 100).2.1 _).mpr
      ⟨by simp, 2, rfl, by
        norm_num [percentile, sortedVals, pIndex, List.insertionSort, List.orderedInsert]⟩
  exact ⟨hmem,
    (severe_days_selection [((0 : ℤ), some (2 : ℚ)), (1, some 1)] 100).2.2 rfl _ hmem⟩

/-- C6 counterexample: at percentile 0 the hotspot mask does NOT mark every
present cell — the threshold is the minimum and the comparison is strict
(`mean_data > threshold`), so the minimum-valued cell stays unmarked. -/
theorem calculate_persistent_hotspots_p0_counterexample :
    calculate_persistent_hotspots [some (1 : ℚ), some 2] 0 = some [false, true] ∧
    ¬ (∀ l, calculate_persistent_hotspots [some (1 : ℚ), some 2] 0 = some l →
        ∀ b ∈ l, b = true) := by
  have hthr : percentile ([some (1 : ℚ), some 2].filterMap id) 0 = 1 := by
    norm_num [percentile, sortedVals, pIndex, List.insertionSort, List.orderedInsert]
  have heq : calculate_persistent_hotspots [some (1 : ℚ), some 2] 0 = some [false, true] := by
    unfold calculate_persistent_hotspots
    rw [if_neg (by simp)]
    simp only [List.map, hthr]
    norm_num
  refine ⟨heq, fun hall => ?_⟩
  have := hall [false, true] heq false (by simp)
  exact Bool.false_ne_true this

/-- C6 amended: hotspot detection returns `None` with no present cell;
otherwise it marks exactly the cells whose present value is STRICTLY
greater than the percentile threshold over the present values — hence at
percentile 0 a minimum-valued cell is NOT marked, and at percentile 100 no
cell is marked. -/
theorem calculate_persistent_hotspots_strict (mean_data : List (Option ℚ)) (p : ℚ) :
    (mean_data.filterMap id = [] → calculate_persistent_hotspots mean_data p = none) ∧
    (mean_data.filterMap id ≠ [] →
      ∃ mask, calculate_persistent_hotspots mean_data p = some mask ∧
        mask.length = mean_data.length ∧
        (∀ i, i < mean_data.length →
          (mask.getD i false = true ↔
            ∃ v, mean_data.getD i none = some v ∧
              percentile (mean_data.filterMap id) p < v)) ∧
        (p = 100 → ∀ b ∈ mask, b = false) ∧
        (p = 0 → ∀ i, i < mean_data.length → ∀ v, mean_data.getD i none = some v →
          (∀ w ∈ mean_data.filterMap id, v ≤ w) → mask.getD i false = false)) := by
  constructor
  · intro hempty
    unfold calculate_persistent_hotspots
    rw [if_pos hempty]
  · intro hne
    refine ⟨mean_data.map (fun c => match c with
      | some v => decide (percentile (mean_data.filterMap id) p < v)
      | none => false), ?_, by simp, ?_, ?_, ?_⟩
    · unfold calculate_persistent_hotspots
      rw [if_neg hne]
    · intro i hi
      rw [List.getD_eq_getElem _ _ (by simpa using hi), List.getElem_map,
        List.getD_eq_getElem _ _ hi]
      rcases hc : mean_data[i] with _ | v
      · simp
      · simp only [decide_eq_true_eq]
        constructor
        · intro h
          exact ⟨v, rfl, h⟩
        · rintro ⟨w, hw, hlt⟩
          rw [Option.some.injEq] at hw
          rwa [hw]
    · intro hp b hb
      rcases List.mem_map.mp hb with ⟨c, hc, hcb⟩
      rcases c with _ | v
      · exact hcb.symm
      · subst hp
        have hvmem : v ∈ mean_data.filterMap id :=
          List.mem_filterMap.mpr ⟨some v, hc, rfl⟩
        obtain ⟨_, hmax⟩ := percentile_hundred_mem _ hne
        rw [← hcb]
        simp only [decide_eq_false_iff_not]
        exact not_lt.mpr (hmax v hvmem)
    · intro hp i hi v hv hmin
      rw [List.getD_eq_getElem _ _ (by simpa using hi), List.getElem_map]
      rw [List.getD_eq_getElem _ _ hi] at hv
      rw [hv]
      subst hp
      obtain ⟨hmem, _⟩ := percentile_zero_min _ hne
      simp only [decide_eq_false_iff_not]
      exact not_lt.mpr (hmin _ hmem)

/-- Witness for C6 amended on the concrete grid [1, 2] at percentile 0: the
minimum cell is unmarked, the other cell is marked. -/
theorem calculate_persistent_hotspots_strict_witness :
    ∃ mask, calculate_persistent_hotspots [some (1 : ℚ), some 2] 0 = some mask ∧
      mask.getD 0 false = false ∧ mask.getD 1 false = true := by
  obtain ⟨mask, hmask, hlen, hchar, h100, h0⟩ :=
    (calculate_persistent_hotspots_strict [some (1 : ℚ), some 2] 0).2 (by simp)
  refine ⟨mask, hmask, ?_, ?_⟩
  · exact h0 rfl 0 (by norm_num) 1 (by simp) (by
      intro w hw
      simp at hw
      rcases hw with h | h
      · norm_num [h]
      · norm_num [h])
  · rw [hchar 1 (by norm_num)]
    refine ⟨2, by simp, ?_⟩
    norm_num [percentile, sortedVals, pIndex, List.insertionSort, List.orderedInsert]

lemma applySource_lon (t : String) (s : KSource) (c : CellRec) :
    (applySource t s c).lon = c.lon := by
  unfold applySource
  split
  · rfl
  · rfl

lemma applySource_lat (t : String) (s : KSource) (c : CellRec) :
    (applySource t s c).lat = c.lat := by
  unfold applySource
  split
  · rfl
  · rfl

lemma foldl_applySource_lon (pairs : List (String × KSource)) :
    ∀ r : CellRec, (pairs.foldl (fun r ts => applySource ts.1 ts.2 r) r).lon = r.lon := by
  induction pairs with
  | nil => intro r; rfl
  | cons ts rest ih =>
    intro r
    rw [List.foldl_cons, ih, applySource_lon]

lemma foldl_applySource_lat (pairs : List (String × KSource)) :
    ∀ r : CellRec, (pairs.foldl (fun r ts => applySource ts.1 ts.2 r) r).lat = r.lat := by
  induction pairs with
  | nil => intro r; rfl
  | cons ts rest ih =>
    intro r
    rw [List.foldl_cons, ih, applySource_lat]

lemma applySource_of_lt (t : String) (s : KSource) (c : CellRec)
    (h : sourceDistKm (c.lon, c.lat) s < 10) :
    applySource t s c =
      ⟨c.lon, c.lat, t, some (sourceDistKm (c.lon, c.lat) s), some s.name⟩ := by
  unfold applySource
  exact if_pos h

lemma applySource_of_not_lt (t : String) (s : KSource) (c : CellRec)
    (h : ¬ sourceDistKm (c.lon, c.lat) s < 10) :
    applySource t s c = c := by
  unfold applySource
  exact if_neg h

lemma foldl_applySource_last_match (p : ℝ × ℝ) (pairs : List (String × KSource)) :
    ∀ r : CellRec, r.lon = p.1 → r.lat = p.2 →
      pairs.foldl (fun r ts => applySource ts.1 ts.2 r) r =
        match (pairs.filter (fun ts => decide (sourceDistKm p ts.2 < 10))).getLast? with
        | none => r
        | some ts => ⟨p.1, p.2, ts.1, some (sourceDistKm p ts.2), some ts.2.name⟩ := by
  induction pairs using List.reverseRecOn with
  | nil => intro r _ _; rfl
  | append_singleton pairs ts ih =>
    intro r hlon hlat
    rw [List.foldl_append, List.foldl_cons, List.foldl_nil, List.filter_append]
    have hpos : (pairs.foldl (fun r ts => applySource ts.1 ts.2 r) r).lon = p.1 ∧
        (pairs.foldl (fun r ts => applySource ts.1 ts.2 r) r).lat = p.2 := by
      rw [foldl_applySource_lon, foldl_applySource_lat]
      exact ⟨hlon, hlat⟩
    by_cases hdist : sourceDistKm p ts.2 < 10
    · rw [show List.filter (fun ts => decide (sourceDistKm p ts.2 < 10)) [ts] = [ts] by
        simp [List.filter, decide_eq_true hdist]]
      rw [List.getLast?_concat]
      rw [applySource_of_lt _ _ _ (by rw [hpos.1, hpos.2]; exact hdist)]
      rw [hpos.1, hpos.2]
    · rw [show List.filter (fun ts => decide (sourceDistKm p ts.2 < 10)) [ts] = [] by
        simp [List.filter, decide_eq_false hdist]]
      rw [List.append_nil]
      rw [applySource_of_not_lt _ _ _ (by rw [hpos.1, hpos.2]; exact hdist)]
      exact ih r hlon hlat

lemma foldl_map_applySource (pairs : List (String × KSource)) :
    ∀ l : List CellRec,
      pairs.foldl (fun df ts => df.map (applySource ts.1 ts.2)) l =
        l.map (fun c => pairs.foldl (fun r ts => applySource ts.1 ts.2 r) c) := by
  induction pairs with
  | nil => intro l; simp
  | cons ts rest ih =>
    intro l
    rw [List.foldl_cons, ih, List.map_map]
    rfl

lemma identify_source_regions_flatten (cells : List (ℝ × ℝ))
    (known_sources : List (String × List KSource)) :
    identify_source_regions cells known_sources =
      ((known_sources.map (fun st => st.2.map (fun s => (st.1, s)))).flatten).foldl
        (fun df ts => df.map (applySource ts.1 ts.2))
        (cells.map (fun p => (⟨p.1, p.2, "unknown", none, none⟩ : CellRec))) := by
  unfold identify_source_regions
  generalize cells.map (fun p => (⟨p.1, p.2, "unknown", none, none⟩ : CellRec)) = init
  induction known_sources generalizing init with
  | nil => rfl
  | cons st rest ih =>
    rw [List.foldl_cons, List.map_cons, List.flatten_cons, List.foldl_append, ih]
    congr 1
    rw [List.foldl_map]

/-- C8: known-source matching scans all (category, source) pairs in their
fixed enumeration order; each cell ends up with the LAST matching pair
(straight-degree distance × 111 strictly below 10 km) — its category, name
and distance — and cells with no matching source keep `unknown` with
missing distance and name. -/
theorem identify_source_regions_last_match (cells : List (ℝ × ℝ))
    (known_sources : List (String × List KSource)) :
    identify_source_regions cells known_sources = cells.map (cellResult known_sources) ∧
    (∀ p : ℝ × ℝ, matchingSources known_sources p = [] →
      cellResult known_sources p = ⟨p.1, p.2, "unknown", none, none⟩) ∧
    (∀ (p : ℝ × ℝ) (ts : String × KSource),
      (matchingSources known_sources p).getLast? = some ts →
      cellResult known_sources p = ⟨p.1, p.2, ts.1, some (sourceDistKm p ts.2), some ts.2.name⟩) := by
  refine ⟨?_, ?_, ?_⟩
  · rw [identify_source_regions_flatten, foldl_map_applySource, List.map_map]
    apply List.map_congr_left
    intro p _
    show (((known_sources.map (fun st => st.2.map (fun s => (st.1, s)))).flatten).foldl
        (fun r ts => applySource ts.1 ts.2 r) ⟨p.1, p.2, "unknown", none, none⟩) =
      cellResult known_sources p
    rw [foldl_applySource_last_match p _ _ rfl rfl]
    unfold cellResult matchingSources
    rfl
  · intro p hempty
    unfold cellResult
    rw [hempty]
    rfl
  · intro p ts hlast
    unfold cellResult
    rw [hlast]

/-- A first concrete known source at the origin. -/
noncomputable def c8src1 : KSource := ⟨"P1", 0, 0⟩

/-- A second concrete known source at the origin, in a later category. -/
noncomputable def c8src2 : KSource := ⟨"B", 0, 0⟩

/-- Two source categories that both match a cell at the origin. -/
noncomputable def c8known : List (String × List KSource) :=
  [("power_plants", [c8src1]), ("industrial_areas", [c8src2])]

/-- Witness for C8: a cell at the origin matches sources in both
categories; the LAST visited category wins. -/
theorem identify_source_regions_last_match_witness :
    (matchingSources c8known ((0 : ℝ), (0 : ℝ))).getLast? =
      some ("industrial_areas", c8src2) ∧
    cellResult c8known ((0 : ℝ), (0 : ℝ)) =
      ⟨0, 0, "industrial_areas", some (sourceDistKm ((0 : ℝ), (0 : ℝ)) c8src2),
        some c8src2.name⟩ := by
  have h0 : Real.sqrt ((0 - (0 : ℝ)) ^ 2 + (0 - (0 : ℝ)) ^ 2) * 111 < 10 := by
    rw [show ((0 - (0 : ℝ)) ^ 2 + (0 - (0 : ℝ)) ^ 2) = 0 by norm_num, Real.sqrt_zero]
    norm_num
  have hd1 : sourceDistKm ((0 : ℝ), (0 : ℝ)) c8src1 < 10 := h0
  have hd2 : sourceDistKm ((0 : ℝ), (0 : ℝ)) c8src2 < 10 := h0
  have e1 : decide (sourceDistKm ((0 : ℝ), (0 : ℝ)) c8src1 < 10) = true := decide_eq_true hd1
  have e2 : decide (sourceDistKm ((0 : ℝ), (0 : ℝ)) c8src2 < 10) = true := decide_eq_true hd2
  have hms : matchingSources c8known ((0 : ℝ), (0 : ℝ)) =
      [("power_plants", c8src1), ("industrial_areas", c8src2)] := by
    unfold matchingSources c8known
    simp only [List.map_cons, List.map_nil, List.flatten_cons, List.flatten_nil,
      List.singleton_append, List.append_nil, List.filter, e1, e2]
  have hlast : (matchingSources c8known ((0 : ℝ), (0 : ℝ))).getLast? =
      some ("industrial_areas", c8src2) := by
    rw [hms]
    rw [List.getLast?_cons_cons]
    rfl
  exact ⟨hlast, (identify_source_regions_last_match [((0 : ℝ), (0 : ℝ))] c8known).2.2
    ((0 : ℝ), (0 : ℝ)) ("industrial_areas", c8src2) hlast⟩

instance instIsTotalFstLe (α : Type) : IsTotal (ℤ × α) (fun a b => a.1 ≤ b.1) :=
  ⟨fun a b => le_total a.1 b.1⟩

instance instIsTransFstLe (α : Type) : IsTrans (ℤ × α) (fun a b => a.1 ≤ b.1) :=
  ⟨fun _ _ _ hab hbc => le_trans hab hbc⟩

/-- C9 counterexample: two period files carrying the SAME timestamp are both
retained by the merge (`concat` + `sortby` does not deduplicate), so after
the merge the timestamps are [0, 0]: not strictly increasing, not unique,
and the first occurrence is not the only one kept. -/
theorem load_all_era5_daily_duplicate_counterexample :
    (load_all_era5_daily [[((0 : ℤ), (0 : ℕ))], [((0 : ℤ), 1)]]).map (List.map Prod.fst) =
      some [0, 0] ∧
    ¬ List.Chain' (· < ·) [(0 : ℤ), 0] ∧
    (load_all_era5_daily [[((0 : ℤ), (0 : ℕ))], [((0 : ℤ), 1)]]).map List.length ≠ some 1 := by
  exact ⟨by decide, by simp [List.chain'_cons], by decide⟩

/-- C9 amended: the merged field exists for a nonempty dataset list, its
timestamps are sorted in NON-decreasing order, and the merged list is a
permutation of the concatenation of the inputs — duplicate timestamps are
retained, so strict increase and uniqueness hold only when the inputs
carry pairwise distinct timestamps. -/
theorem load_all_era5_daily_sorted_perm {α : Type} (datasets : List (List (ℤ × α)))
    (h : datasets ≠ []) :
    ∃ l, load_all_era5_daily datasets = some l ∧
      (l.map Prod.fst).Sorted (· ≤ ·) ∧ l.Perm datasets.flatten := by
  refine ⟨List.insertionSort (fun a b => a.1 ≤ b.1) datasets.flatten, ?_, ?_, ?_⟩
  · unfold load_all_era5_daily
    rw [if_neg (by simpa [List.isEmpty_iff] using h)]
  · have hs : (List.insertionSort (fun a b : ℤ × α => a.1 ≤ b.1)
        datasets.flatten).Sorted (fun a b => a.1 ≤ b.1) :=
      List.sorted_insertionSort _ _
    exact List.Pairwise.map _ (fun a b hab => hab) hs
  · exact List.perm_insertionSort _ _

/-- Witness for C9 amended at a concrete one-file dataset. -/
theorem load_all_era5_daily_sorted_perm_witness :
    ∃ l, load_all_era5_daily [[((0 : ℤ), true)]] = some l ∧
      (l.map Prod.fst).Sorted (· ≤ ·) ∧ l.Perm [[((0 : ℤ), true)]].flatten :=
  load_all_era5_daily_sorted_perm [[((0 : ℤ), true)]] (by simp)

/-- C10: every severe record is kept in the output (one output row per
severe day), and a severe record whose back-trajectory is empty is emitted
with its value intact and with `origin_lon`, `origin_lat` and
`trajectory_distance` all missing — no error, no dropped record. -/
theorem analyze_severe_episodes_empty_traj (series : List (ℤ × Option ℚ)) (p : ℚ)
    (field : ℤ → ℝ → ℝ → Option (ℝ × ℝ)) (clon clat : ℝ) :
    (analyze_severe_episodes series p field clon clat).length =
      (severe_days series p).length ∧
    (∀ r ∈ severe_days series p,
      calculate_back_trajectory field clon clat r.1 72 = [] →
      (⟨r.1, r.2, none, none, none⟩ : EpisodeRec) ∈
        analyze_severe_episodes series p field clon clat) := by
  constructor
  · unfold analyze_severe_episodes
    rw [List.length_map]
  · intro r hr htraj
    unfold analyze_severe_episodes
    refine List.mem_map.mpr ⟨r, hr, ?_⟩
    simp only [htraj]
    rfl

/-- A wind field with no usable sample anywhere: every trajectory is empty. -/
noncomputable def c10field : ℤ → ℝ → ℝ → Option (ℝ × ℝ) := fun _ _ _ => none

/-- Witness for C10: with an everywhere-failing wind field, the (unique,
maximum) severe record is still present in the output with missing origin
and distance fields. -/
theorem analyze_severe_episodes_empty_traj_witness :
    ((0 : ℤ), some (1 : ℚ)) ∈ severe_days [((0 : ℤ), some (1 : ℚ))] 90 ∧
    calculate_back_trajectory c10field 77 28 0 72 = [] ∧
    (⟨0, some 1, none, none, none⟩ : EpisodeRec) ∈
      analyze_severe_episodes [((0 : ℤ), some (1 : ℚ))] 90 c10field 77 28 := by
  have hmem : ((0 : ℤ), some (1 : ℚ)) ∈ severe_days [((0 : ℤ), some (1 : ℚ))] 90 := by
    unfold severe_days
    rw [if_neg (by simp)]
    refine List.mem_filter.mpr ⟨by simp, ?_⟩
    show decide (percentile ([((0 : ℤ), some (1 : ℚ))].filterMap Prod.snd) 90 ≤ 1) = true
    rw [decide_eq_true_eq]
    norm_num [percentile, sortedVals, pIndex, List.insertionSort, List.orderedInsert,
      List.filterMap]
  have htraj : calculate_back_trajectory c10field 77 28 0 72 = [] := by
    unfold calculate_back_trajectory
    rw [show hoursList 72 = 0 :: List.range' 6 11 6 from rfl]
    simp [backTrajGo, c10field]
  exact ⟨hmem, htraj,
    (analyze_severe_episodes_empty_traj [((0 : ℤ), some (1 : ℚ))] 90 c10field 77 28).2
      (0, some 1) hmem htraj⟩

lemma havPair_self (p : ℝ × ℝ) : havPair p p = 0 := by
  unfold havPair havRad
  simp only [sub_self, zero_div, Real.sin_zero]
  rw [show ((0 : ℝ) ^ 2 + Real.cos p.1 * Real.cos p.1 * 0 ^ 2) = 0 by ring]
  rw [Real.sqrt_zero, Real.arcsin_zero, mul_zero]

lemma havRad_same_second (x1 y1 x2 : ℝ) (h2 : |x1 - y1| / 2 ≤ Real.pi / 2) :
    havRad x1 x2 y1 x2 = |x1 - y1| := by
  unfold havRad
  rw [sub_self, zero_div, Real.sin_zero]
  rw [show (Real.sin ((x1 - y1) / 2) ^ 2 + Real.cos x1 * Real.cos y1 * 0 ^ 2) =
    Real.sin ((x1 - y1) / 2) ^ 2 by ring]
  have habs : Real.sin ((x1 - y1) / 2) ^ 2 = Real.sin (|x1 - y1| / 2) ^ 2 := by
    rcases abs_cases (x1 - y1) with ⟨h, _⟩ | ⟨h, _⟩
    · rw [h]
    · rw [h, show -(x1 - y1) / 2 = -((x1 - y1) / 2) by ring, Real.sin_neg]
      ring
  rw [habs]
  have ht0 : 0 ≤ |x1 - y1| / 2 := by positivity
  have htpi : |x1 - y1| / 2 ≤ Real.pi := le_trans h2 (by linarith [Real.pi_pos])
  rw [Real.sqrt_sq (Real.sin_nonneg_of_nonneg_of_le_pi ht0 htpi)]
  rw [Real.arcsin_sin (by linarith [Real.pi_pos]) h2]
  ring

lemma havRad_from_pole (x2 y1 y2 : ℝ) (h1 : 0 ≤ Real.pi / 2 - y1)
    (h2 : Real.pi / 2 - y1 ≤ Real.pi) :
    havRad (Real.pi / 2) x2 y1 y2 = Real.pi / 2 - y1 := by
  unfold havRad
  rw [Real.cos_pi_div_two]
  rw [show ((Real.sin ((Real.pi / 2 - y1) / 2)) ^ 2 +
    0 * Real.cos y1 * Real.sin ((x2 - y2) / 2) ^ 2) =
    Real.sin ((Real.pi / 2 - y1) / 2) ^ 2 by ring]
  have ht0 : 0 ≤ (Real.pi / 2 - y1) / 2 := by linarith
  have htpi : (Real.pi / 2 - y1) / 2 ≤ Real.pi := by linarith [Real.pi_pos]
  rw [Real.sqrt_sq (Real.sin_nonneg_of_nonneg_of_le_pi ht0 htpi)]
  rw [Real.arcsin_sin (by linarith [Real.pi_pos]) (by linarith)]
  ring

lemma havPair_radPoint_same_lat (a b lat : ℝ) (h : |a - b| ≤ 180) :
    havPair (radPoint (a, lat)) (radPoint (b, lat)) = |a - b| * Real.pi / 180 := by
  unfold havPair radPoint
  have habs : |a * Real.pi / 180 - b * Real.pi / 180| = |a - b| * Real.pi / 180 := by
    rw [show a * Real.pi / 180 - b * Real.pi / 180 = (a - b) * (Real.pi / 180) by ring,
      abs_mul, abs_of_nonneg (by positivity : (0 : ℝ) ≤ Real.pi / 180)]
    ring
  have hcond : |a * Real.pi / 180 - b * Real.pi / 180| / 2 ≤ Real.pi / 2 := by
    rw [habs]
    have : |a - b| * Real.pi ≤ 180 * Real.pi :=
      mul_le_mul_of_nonneg_right h Real.pi_pos.le
    calc |a - b| * Real.pi / 180 / 2 = |a - b| * Real.pi / 360 := by ring
      _ ≤ 180 * Real.pi / 360 := by linarith
      _ = Real.pi / 2 := by ring
  calc havRad (a * Real.pi / 180) (lat * Real.pi / 180)
        (b * Real.pi / 180) (lat * Real.pi / 180)
      = |a * Real.pi / 180 - b * Real.pi / 180| := havRad_same_second _ _ _ hcond
    _ = |a - b| * Real.pi / 180 := habs

lemma length_le_one_of_all_eq {l : List ℕ} (hnd : l.Nodup) (i : ℕ)
    (h : ∀ x ∈ l, x = i) : l.length ≤ 1 := by
  match l with
  | [] => simp
  | [a] => simp
  | a :: b :: t =>
    exfalso
    have ha : a = i := h a (by simp)
    have hb : b = i := h b (by simp)
    have : a ∉ b :: t := (List.nodup_cons.mp hnd).1
    exact this (by rw [ha, hb]; simp)

lemma dbscanLabels_getD (pts : List (ℝ × ℝ)) (eps : ℝ) (ms : ℕ) (i : ℕ)
    (hi : i < pts.length) :
    (dbscanLabels pts eps ms).getD i 0 = dbLabel pts eps ms i := by
  unfold dbscanLabels
  rw [List.getD_eq_getElem _ _ (by simpa using hi), List.getElem_map, List.getElem_range]

lemma map_radPoint_getD (coords : List (ℝ × ℝ)) (i : ℕ) (hi : i < coords.length) :
    (coords.map radPoint).getD i (0, 0) = radPoint (coords.getD i (0, 0)) := by
  rw [List.getD_eq_getElem _ _ (by simpa using hi), List.getElem_map,
    List.getD_eq_getElem _ _ hi]

/-- C7 amended: for the clustering as coded (radianized (lon, lat) pairs,
haversine treating longitude as latitude, neighbourhood radius
`eps_km / 111` in unit-sphere radians, `min_samples = 3`): any input whose
points are pairwise within that radius and which has at least 3 points
receives one single shared non-noise cluster id; and any point farther
than that radius from every other input point receives the noise sentinel
−1. -/
theorem cluster_hotspots_amended (coords : List (ℝ × ℝ)) (eps_km : ℝ) :
    (3 ≤ coords.length →
      (∀ i j, i < coords.length → j < coords.length →
        havPair (radPoint (coords.getD i (0, 0))) (radPoint (coords.getD j (0, 0))) ≤
          eps_km / 111) →
      ∃ c : ℕ, ∀ i, i < coords.length →
        (cluster_hotspots coords eps_km).getD i 0 = (c : ℤ)) ∧
    (∀ i, i < coords.length →
      (∀ j, j < coords.length → j ≠ i →
        eps_km / 111 <
          havPair (radPoint (coords.getD i (0, 0))) (radPoint (coords.getD j (0, 0)))) →
      (cluster_hotspots coords eps_km).getD i 0 = -1) := by
  set eps : ℝ := eps_km / 111 with heps
  set pts : List (ℝ × ℝ) := coords.map radPoint with hpts
  have hlen : pts.length = coords.length := List.length_map _ _
  constructor
  · intro h3 hclose
    have hd : ∀ i j, i < pts.length → j < pts.length →
        havPair (pts.getD i (0, 0)) (pts.getD j (0, 0)) ≤ eps := by
      intro i j hi hj
      rw [hlen] at hi hj
      rw [hpts, map_radPoint_getD _ _ hi, map_radPoint_getD _ _ hj]
      exact hclose i j hi hj
    have hnb : ∀ i, i < pts.length → dbNeighbors pts eps i = List.range pts.length := by
      intro i hi
      unfold dbNeighbors
      rw [List.filter_eq_self]
      intro j hj
      exact decide_eq_true (hd i j hi (List.mem_range.mp hj))
    have hcore : ∀ i, i < pts.length → dbCore pts eps 3 i := by
      intro i hi
      refine ⟨hi, ?_⟩
      rw [hnb i hi, List.length_range, hlen]
      exact h3
    have hlabel : ∀ i, i < pts.length →
        dbLabel pts eps 3 i = ((sInf {m | dbCore pts eps 3 m} : ℕ) : ℤ) := by
      intro i hi
      unfold dbLabel
      rw [if_pos ⟨i, hcore i hi, hd i i hi hi⟩]
      congr 1
      congr 1
      ext m
      constructor
      · exact fun hm => hm.1
      · intro hm
        exact ⟨hm, m, hm, hd i m hi hm.1, Relation.ReflTransGen.refl⟩
    refine ⟨sInf {m | dbCore pts eps 3 m}, ?_⟩
    intro i hi
    show (dbscanLabels pts eps 3).getD i 0 = _
    rw [dbscanLabels_getD pts eps 3 i (hlen ▸ hi), hlabel i (hlen ▸ hi)]
  · intro i hi hfar
    have hfar' : ∀ j, j < pts.length → j ≠ i →
        eps < havPair (pts.getD i (0, 0)) (pts.getD j (0, 0)) := by
      intro j hj hne
      rw [hlen] at hj
      rw [hpts, map_radPoint_getD _ _ hi, map_radPoint_getD _ _ hj]
      exact hfar j hj hne
    have hsub : ∀ x ∈ dbNeighbors pts eps i, x = i := by
      intro x hx
      unfold dbNeighbors at hx
      rw [List.mem_filter] at hx
      obtain ⟨hxr, hxd⟩ := hx
      by_contra hne
      exact absurd (of_decide_eq_true hxd)
        (not_le.mpr (hfar' x (List.mem_range.mp hxr) hne))
    have hnotcore : ¬ dbCore pts eps 3 i := by
      rintro ⟨_, hlen3⟩
      have h1 : (dbNeighbors pts eps i).length ≤ 1 :=
        length_le_one_of_all_eq (List.Nodup.filter _ (List.nodup_range _)) i hsub
      omega
    show (dbscanLabels pts eps 3).getD i 0 = -1
    rw [dbscanLabels_getD pts eps 3 i (hlen ▸ hi)]
    unfold dbLabel
    rw [if_neg]
    rintro ⟨j, hcj, hdj⟩
    by_cases hji : j = i
    · exact hnotcore (hji ▸ hcj)
    · exact absurd hdj (not_le.mpr (hfar' j hcj.1 hji))

/-- Witness for C7 amended: three coincident points get one shared cluster
id; a lone point gets the noise sentinel −1. -/
theorem cluster_hotspots_amended_witness :
    (∃ c : ℕ, ∀ i,
      i < ([((0 : ℝ), (0 : ℝ)), ((0 : ℝ), (0 : ℝ)), ((0 : ℝ), (0 : ℝ))] : List (ℝ × ℝ)).length →
      (cluster_hotspots [((0 : ℝ), (0 : ℝ)), ((0 : ℝ), (0 : ℝ)), ((0 : ℝ), (0 : ℝ))] 5).getD i 0 =
        (c : ℤ)) ∧
    (cluster_hotspots [((0 : ℝ), (0 : ℝ))] 5).getD 0 0 = -1 := by
  constructor
  · apply (cluster_hotspots_amended
      [((0 : ℝ), (0 : ℝ)), ((0 : ℝ), (0 : ℝ)), ((0 : ℝ), (0 : ℝ))] 5).1 (by norm_num)
    intro i j hi hj
    have hgd : ∀ k : ℕ,
        ([((0 : ℝ), (0 : ℝ)), ((0 : ℝ), (0 : ℝ)), ((0 : ℝ), (0 : ℝ))] :
          List (ℝ × ℝ)).getD k (0, 0) = ((0 : ℝ), (0 : ℝ)) := by
      intro k
      match k with
      | 0 => rfl
      | 1 => rfl
      | 2 => rfl
      | (n + 3) => rfl
    rw [hgd i, hgd j, havPair_self]
    positivity
  · apply (cluster_hotspots_amended [((0 : ℝ), (0 : ℝ))] 5).2 0 (by norm_num)
    intro j hj hne
    exfalso
    simp only [List.length_singleton] at hj
    omega

/-- The common latitude, 0.01° south of the pole, of the counterexample
points: all of them lie within ~1.2 km of the north pole. -/
noncomputable def latCE : ℝ := 90 - 1 / 100

/-- Four (lon, lat) points just off the north pole: the first three have
close longitudes, the fourth a longitude 119°-120° away. -/
noncomputable def ptsCE7 : List (ℝ × ℝ) :=
  [(0, latCE), (1 / 2, latCE), (1, latCE), (120, latCE)]

lemma geo_pole_latCE (lon : ℝ) : geoDistKm ((0 : ℝ), (90 : ℝ)) (lon, latCE) ≤ 5 := by
  unfold geoDistKm latCE
  dsimp only
  rw [show ((90 : ℝ) * Real.pi / 180) = Real.pi / 2 by ring]
  rw [havRad_from_pole _ _ _ (by linarith [Real.pi_pos]) (by linarith [Real.pi_pos])]
  linarith [Real.pi_le_four, Real.pi_pos]

/-- C7 counterexample: the four points of `ptsCE7` all lie within 5 km
(true great-circle km) of the north pole and there are at least 3 of them,
yet the clustering does NOT give them one shared cluster id: the first
three points are mutually within the coded radius 5/111 (radians) and form
a cluster, while the fourth is beyond it and is labelled noise. -/
theorem cluster_hotspots_eps_counterexample :
    (∀ p ∈ ptsCE7, geoDistKm ((0 : ℝ), (90 : ℝ)) p ≤ 5) ∧
    3 ≤ ptsCE7.length ∧
    ¬ (∃ c : ℤ, ∀ i, i < ptsCE7.length →
        (cluster_hotspots ptsCE7 5).getD i 0 = c) := by
  have hclose : ∀ a b : ℝ, |a - b| ≤ 1 →
      havPair (radPoint (a, latCE)) (radPoint (b, latCE)) ≤ 5 / 111 := by
    intro a b hab
    rw [havPair_radPoint_same_lat _ _ _ (le_trans hab (by norm_num))]
    have h1 : |a - b| * Real.pi ≤ 1 * 4 :=
      mul_le_mul hab Real.pi_le_four Real.pi_pos.le (by norm_num)
    linarith
  have hfar : ∀ a b : ℝ, 119 ≤ |a - b| → |a - b| ≤ 180 →
      5 / 111 < havPair (radPoint (a, latCE)) (radPoint (b, latCE)) := by
    intro a b h119 h180
    rw [havPair_radPoint_same_lat _ _ _ h180]
    have h1 : 119 * 3 ≤ |a - b| * Real.pi :=
      mul_le_mul h119 Real.pi_gt_three.le (by norm_num) (abs_nonneg _)
    linarith
  have hg0 : (ptsCE7.map radPoint).getD 0 (0, 0) = radPoint ((0 : ℝ), latCE) := rfl
  have hg1 : (ptsCE7.map radPoint).getD 1 (0, 0) = radPoint ((1 / 2 : ℝ), latCE) := rfl
  have hg2 : (ptsCE7.map radPoint).getD 2 (0, 0) = radPoint ((1 : ℝ), latCE) := rfl
  have hg3 : (ptsCE7.map radPoint).getD 3 (0, 0) = radPoint ((120 : ℝ), latCE) := rfl
  have keyT : ∀ (k l : ℕ) (a b : ℝ),
      (ptsCE7.map radPoint).getD k (0, 0) = radPoint (a, latCE) →
      (ptsCE7.map radPoint).getD l (0, 0) = radPoint (b, latCE) →
      |a - b| ≤ 1 →
      decide (havPair ((ptsCE7.map radPoint).getD k (0, 0))
        ((ptsCE7.map radPoint).getD l (0, 0)) ≤ 5 / 111) = true := by
    intro k l a b hk hl hab
    rw [hk, hl]
    exact decide_eq_true (hclose a b hab)
  have keyF : ∀ (k l : ℕ) (a b : ℝ),
      (ptsCE7.map radPoint).getD k (0, 0) = radPoint (a, latCE) →
      (ptsCE7.map radPoint).getD l (0, 0) = radPoint (b, latCE) →
      119 ≤ |a - b| → |a - b| ≤ 180 →
      decide (havPair ((ptsCE7.map radPoint).getD k (0, 0))
        ((ptsCE7.map radPoint).getD l (0, 0)) ≤ 5 / 111) = false := by
    intro k l a b hk hl h119 h180
    rw [hk, hl]
    exact decide_eq_false (not_le.mpr (hfar a b h119 h180))
  have hlen4 : (ptsCE7.map radPoint).length = 4 := rfl
  have habs1 : ∀ x : ℝ, -1 ≤ x → x ≤ 1 → |x| ≤ 1 := fun x h1 h2 => abs_le.mpr ⟨h1, h2⟩
  have hN0 : dbNeighbors (ptsCE7.map radPoint) (5 / 111) 0 = [0, 1, 2] := by
    unfold dbNeighbors
    rw [hlen4, show List.range 4 = [0, 1, 2, 3] from rfl]
    simp only [List.filter,
      keyT 0 0 0 0 hg0 hg0 (abs_le.mpr (by norm_num)),
      keyT 0 1 0 (1 / 2) hg0 hg1 (abs_le.mpr (by norm_num)),
      keyT 0 2 0 1 hg0 hg2 (abs_le.mpr (by norm_num)),
      keyF 0 3 0 120 hg0 hg3 (by rw [abs_of_nonpos (by norm_num)]; norm_num)
        (by rw [abs_of_nonpos (by norm_num)]; norm_num)]
  have hN1 : dbNeighbors (ptsCE7.map radPoint) (5 / 111) 1 = [0, 1, 2] := by
    unfold dbNeighbors
    rw [hlen4, show List.range 4 = [0, 1, 2, 3] from rfl]
    simp only [List.filter,
      keyT 1 0 (1 / 2) 0 hg1 hg0 (abs_le.mpr (by norm_num)),
      keyT 1 1 (1 / 2) (1 / 2) hg1 hg1 (abs_le.mpr (by norm_num)),
      keyT 1 2 (1 / 2) 1 hg1 hg2 (abs_le.mpr (by norm_num)),
      keyF 1 3 (1 / 2) 120 hg1 hg3 (by rw [abs_of_nonpos (by norm_num)]; norm_num)
        (by rw [abs_of_nonpos (by norm_num)]; norm_num)]
  have hN2 : dbNeighbors (ptsCE7.map radPoint) (5 / 111) 2 = [0, 1, 2] := by
    unfold dbNeighbors
    rw [hlen4, show List.range 4 = [0, 1, 2, 3] from rfl]
    simp only [List.filter,
      keyT 2 0 1 0 hg2 hg0 (abs_le.mpr (by norm_num)),
      keyT 2 1 1 (1 / 2) hg2 hg1 (abs_le.mpr (by norm_num)),
      keyT 2 2 1 1 hg2 hg2 (abs_le.mpr (by norm_num)),
      keyF 2 3 1 120 hg2 hg3 (by rw [abs_of_nonpos (by norm_num)]; norm_num)
        (by rw [abs_of_nonpos (by norm_num)]; norm_num)]
  have hN3 : dbNeighbors (ptsCE7.map radPoint) (5 / 111) 3 = [3] := by
    unfold dbNeighbors
    rw [hlen4, show List.range 4 = [0, 1, 2, 3] from rfl]
    simp only [List.filter,
      keyF 3 0 120 0 hg3 hg0 (by rw [abs_of_nonneg (by norm_num)]; norm_num)
        (by rw [abs_of_nonneg (by norm_num)]; norm_num),
      keyF 3 1 120 (1 / 2) hg3 hg1 (by rw [abs_of_nonneg (by norm_num)]; norm_num)
        (by rw [abs_of_nonneg (by norm_num)]; norm_num),
      keyF 3 2 120 1 hg3 hg2 (by rw [abs_of_nonneg (by norm_num)]; norm_num)
        (by rw [abs_of_nonneg (by norm_num)]; norm_num),
      keyT 3 3 120 120 hg3 hg3 (abs_le.mpr (by norm_num))]
  have hc0 : dbCore (ptsCE7.map radPoint) (5 / 111) 3 0 := by
    refine ⟨by rw [hlen4]; norm_num, ?_⟩
    rw [hN0]
    norm_num
  have hnc3 : ¬ dbCore (ptsCE7.map radPoint) (5 / 111) 3 3 := by
    rintro ⟨_, h3⟩
    rw [hN3] at h3
    norm_num at h3
  have hf30 : 5 / 111 < havPair ((ptsCE7.map radPoint).getD 3 (0, 0))
      ((ptsCE7.map radPoint).getD 0 (0, 0)) := by
    rw [hg3, hg0]
    exact hfar 120 0 (by rw [abs_of_nonneg (by norm_num)]; norm_num)
      (by rw [abs_of_nonneg (by norm_num)]; norm_num)
  have hf31 : 5 / 111 < havPair ((ptsCE7.map radPoint).getD 3 (0, 0))
      ((ptsCE7.map radPoint).getD 1 (0, 0)) := by
    rw [hg3, hg1]
    exact hfar 120 (1 / 2) (by rw [abs_of_nonneg (by norm_num)]; norm_num)
      (by rw [abs_of_nonneg (by norm_num)]; norm_num)
  have hf32 : 5 / 111 < havPair ((ptsCE7.map radPoint).getD 3 (0, 0))
      ((ptsCE7.map radPoint).getD 2 (0, 0)) := by
    rw [hg3, hg2]
    exact hfar 120 1 (by rw [abs_of_nonneg (by norm_num)]; norm_num)
      (by rw [abs_of_nonneg (by norm_num)]; norm_num)
  have hl3 : dbLabel (ptsCE7.map radPoint) (5 / 111) 3 3 = -1 := by
    unfold dbLabel
    rw [if_neg]
    rintro ⟨j, hcj, hdj⟩
    have hj4 : j < 4 := by rw [← hlen4]; exact hcj.1
    interval_cases j
    · exact absurd hdj (not_le.mpr hf30)
    · exact absurd hdj (not_le.mpr hf31)
    · exact absurd hdj (not_le.mpr hf32)
    · exact hnc3 hcj
  have hd00 : havPair ((ptsCE7.map radPoint).getD 0 (0, 0))
      ((ptsCE7.map radPoint).getD 0 (0, 0)) ≤ 5 / 111 := by
    rw [hg0]
    exact hclose 0 0 (abs_le.mpr (by norm_num))
  have hl0 : ∃ m : ℕ, dbLabel (ptsCE7.map radPoint) (5 / 111) 3 0 = (m : ℤ) := by
    unfold dbLabel
    rw [if_pos ⟨0, hc0, hd00⟩]
    exact ⟨_, rfl⟩
  have hgetD : ∀ i, i < 4 →
      (cluster_hotspots ptsCE7 5).getD i 0 =
        dbLabel (ptsCE7.map radPoint) (5 / 111) 3 i := by
    intro i hi
    show (dbscanLabels (ptsCE7.map radPoint) (5 / 111) 3).getD i 0 = _
    exact dbscanLabels_getD _ _ _ i (by rw [hlen4]; exact hi)
  refine ⟨?_, by norm_num [ptsCE7], ?_⟩
  · intro p hp
    unfold ptsCE7 at hp
    simp only [List.mem_cons, List.not_mem_nil, or_false] at hp
    rcases hp with h | h | h | h
    · rw [h]; exact geo_pole_latCE 0
    · rw [h]; exact geo_pole_latCE (1 / 2)
    · rw [h]; exact geo_pole_latCE 1
    · rw [h]; exact geo_pole_latCE 120
  · rintro ⟨c, hcall⟩
    have h3c := hcall 3 (by norm_num [ptsCE7])
    have h0c := hcall 0 (by norm_num [ptsCE7])
    rw [hgetD 3 (by norm_num), hl3] at h3c
    obtain ⟨m, hm⟩ := hl0
    rw [hgetD 0 (by norm_num), hm] at h0c
    omega
